import Mathlib

set_option maxRecDepth 4000

/- Shallow embedding of the timetable generator in src/soft/main_modified_full.py.
   Times of day are minutes after midnight.  Python dictionaries keyed by a
   resource name and holding one set of occupied slots per day are modelled as
   total functions with default empty set; this agrees with the source, which
   initialises an entry with an empty set for every day before its first use,
   and whose membership tests against a missing entry are skipped (equivalent
   to testing membership in the empty set). -/

def DAYS : List String := ["Monday", "Tuesday", "Wednesday", "Thursday", "Friday"]

def START_TIME : Nat := 9 * 60
def END_TIME : Nat := 18 * 60 + 30
def LECTURE_DURATION : Nat := 3
def LAB_DURATION : Nat := 4
def TUTORIAL_DURATION : Nat := 2
def MAX_SCHEDULING_ATTEMPTS : Nat := 5000

/-- generate_time_slots: 30-minute slots starting at START_TIME while the
current time is before END_TIME; the while loop is unrolled into a map over
the number of iterations, (END_TIME - START_TIME) / 30 = 19. -/
def generate_time_slots : List (Nat × Nat) :=
  (List.range ((END_TIME - START_TIME) / 30)).map fun i =>
    (START_TIME + 30 * i, START_TIME + 30 * i + 30)

def TIME_SLOTS : List (Nat × Nat) := generate_time_slots

/-- is_morning_break: start time in [10:30, 11:00). -/
def is_morning_break (slot : Nat × Nat) : Bool :=
  decide (10 * 60 + 30 ≤ slot.1) && decide (slot.1 < 11 * 60)

/-- is_lunch_time: start time in [12:30, 14:30). -/
def is_lunch_time (slot : Nat × Nat) : Bool :=
  decide (12 * 60 + 30 ≤ slot.1) && decide (slot.1 < 14 * 60 + 30)

/-- Python: ch in s. -/
def contains_char (s : String) (ch : Char) : Bool := s.data.any (fun a => a == ch)

/-- Python: s.startswith(pre). -/
def starts_with (s pre : String) : Bool := pre.data.isPrefixOf s.data

/-- Python: pat in s, the substring test. -/
def contains_str (s pat : String) : Bool := s.data.tails.any (fun t => pat.data.isPrefixOf t)

/-- faculty_flexible in check_scheduling_possibility:
a slash or comma in the faculty designator. -/
def faculty_flexible (faculty : String) : Bool :=
  contains_char faculty '/' || contains_char faculty ','

/-- classroom_flexible in check_scheduling_possibility: the source only tests
for the TBD_ prefix and the "Will be scheduled" marker (no slash/comma test). -/
def classroom_flexible (classroom : String) : Bool :=
  starts_with classroom "TBD_" || contains_str classroom "Will be scheduled"

structure Cell where
  type : Option String
  code : String
  name : String
  faculty : String
  classroom : String
  duration : Nat
  is_first : Bool
  position : Nat
deriving DecidableEq

/-- The cell value every grid position is initialised with. -/
def init_cell : Cell := ⟨none, "", "", "", "", 0, false, 0⟩

structure SchedState where
  professor_schedule : String → Nat → Finset Nat
  classroom_schedule : String → Nat → Finset Nat
  timetable : Nat → Nat → Cell

def init_state : SchedState := ⟨fun _ _ => ∅, fun _ _ => ∅, fun _ _ => init_cell⟩

/-- check_scheduling_possibility: the conjunction, over every offset i below
duration, of the five conditions tested in the loop body (in source order). -/
def check_scheduling_possibility (faculty classroom : String) (day start_slot duration : Nat)
    (professor_schedule classroom_schedule : String → Nat → Finset Nat)
    (timetable : Nat → Nat → Cell) : Bool :=
  (List.range duration).all fun i =>
    decide (start_slot + i < TIME_SLOTS.length) &&
    ((timetable day (start_slot + i)).type == none) &&
    !(is_morning_break (TIME_SLOTS.getD (start_slot + i) (0, 0))) &&
    (faculty_flexible faculty || !(decide ((start_slot + i) ∈ professor_schedule faculty day))) &&
    (classroom_flexible classroom || !(decide ((start_slot + i) ∈ classroom_schedule classroom day)))

/-- Python str.strip(): drop whitespace from both ends. -/
def pystrip (s : String) : String :=
  ⟨((s.data.dropWhile Char.isWhitespace).reverse.dropWhile Char.isWhitespace).reverse⟩

/-- Python list-of-chars split on ',' ("".split(',') gives [""]). -/
def split_on_comma : List Char → List (List Char)
  | [] => [[]]
  | c :: rest =>
    if c == ',' then [] :: split_on_comma rest
    else
      match split_on_comma rest with
      | [] => [[c]]
      | w :: ws => (c :: w) :: ws

/-- The faculty_list computed at the top of update_schedule: the designator
itself, or - when it holds a slash or comma - the stripped pieces obtained by
replacing '/' with ',' and splitting on ','. -/
def split_faculty (faculty : String) : List String :=
  if contains_char faculty '/' || contains_char faculty ',' then
    (split_on_comma (faculty.data.map fun ch => if ch == '/' then ',' else ch)).map
      (fun w => pystrip ⟨w⟩)
  else [faculty]

/-- schedule[nm][day].add(slot) on a name-and-day indexed family of slot sets. -/
def add_slot (sched : String → Nat → Finset Nat) (nm : String) (day slot : Nat) :
    String → Nat → Finset Nat :=
  fun n d => if n = nm ∧ d = day then insert slot (sched n d) else sched n d

def write_cell (tt : Nat → Nat → Cell) (day slot : Nat) (c : Cell) : Nat → Nat → Cell :=
  fun d s => if d = day ∧ s = slot then c else tt d s

/-- The cell written by update_schedule at offset i of a session. -/
def session_cell (faculty classroom session_type code name : String) (duration i : Nat) : Cell :=
  ⟨some session_type,
   if i = 0 then code else "",
   if i = 0 then name else "",
   if i = 0 then faculty else "",
   if i = 0 then classroom else "",
   if i = 0 then duration else 0,
   decide (i = 0),
   i⟩

/-- One iteration of the update_schedule loop at offset i: record the slot for
every name in faculty_list and for the classroom, and write the grid cell. -/
def update_step (faculty classroom : String) (day start_slot duration : Nat)
    (session_type code name : String) (st : SchedState) (i : Nat) : SchedState :=
  ⟨(split_faculty faculty).foldl
      (fun ps f => add_slot ps f day (start_slot + i)) st.professor_schedule,
   add_slot st.classroom_schedule classroom day (start_slot + i),
   write_cell st.timetable day (start_slot + i)
     (session_cell faculty classroom session_type code name duration i)⟩

/-- update_schedule: the loop over offsets 0 .. duration - 1. -/
def update_schedule (faculty classroom : String) (day start_slot duration : Nat)
    (session_type code name : String) (st : SchedState) : SchedState :=
  (List.range duration).foldl
    (update_step faculty classroom day start_slot duration session_type code name) st

/-- The candidate lunch start slots: start time in [12:30, 14:00). -/
def lunch_start_indices : List Nat :=
  (List.range TIME_SLOTS.length).filter fun i =>
    decide (12 * 60 + 30 ≤ (TIME_SLOTS.getD i (0, 0)).1) &&
    decide ((TIME_SLOTS.getD i (0, 0)).1 < 14 * 60)

/-- One lunch cell write: the source sets type, code, name, is_first and
duration, and leaves position, faculty and classroom untouched. -/
def mark_lunch_slot (tt : Nat → Nat → Cell) (day slot start_idx : Nat) : Nat → Nat → Cell :=
  fun d s =>
    if d = day ∧ s = slot then
      { tt d s with
        type := some "LUNCH"
        code := "LUNCH"
        name := "LUNCH BREAK"
        is_first := decide (slot = start_idx)
        duration := if slot = start_idx then 2 else 0 }
    else tt d s

/-- The per-day body of schedule_random_lunch_breaks once a start slot has been
drawn: mark slots start_idx and start_idx + 1 (range(start_idx, end_idx + 1)
with end_idx = start_idx + 1). -/
def schedule_lunch_day (tt : Nat → Nat → Cell) (day start_idx : Nat) : Nat → Nat → Cell :=
  (List.range' start_idx 2).foldl (fun tt s => mark_lunch_slot tt day s start_idx) tt

inductive Outcome where
  | Scheduled (day start_slot : Nat)
  | Failed
deriving DecidableEq

def Outcome.isScheduled : Outcome → Bool
  | .Scheduled _ _ => true
  | .Failed => false

/-- day_load: the number of grid cells on a day holding a session. -/
def day_load (tt : Nat → Nat → Cell) (day : Nat) : Nat :=
  ((List.range TIME_SLOTS.length).filter fun s => (tt day s).type != none).length

def sorted_insert (load : Nat → Nat) (d : Nat) : List Nat → List Nat
  | [] => [d]
  | e :: rest =>
    if load d < load e ∨ (load d = load e ∧ d < e) then d :: e :: rest
    else e :: sorted_insert load d rest

/-- Python's stable sorted(day_load.keys(), key=load) over the distinct day
indices 0..4: ascending by load with ties broken by original index, realised
as an insertion sort on the lexicographic key (load d, d). -/
def sorted_days (tt : Nat → Nat → Cell) : List Nat :=
  (List.range DAYS.length).foldr (sorted_insert (day_load tt)) []

/-- The inner phase-1 scan of one day: candidate start slots in increasing
order over range(len(TIME_SLOTS) - duration + 1), written with the truncation
len + 1 - duration which agrees with the Python range for every duration. -/
def find_slot (faculty classroom : String) (duration : Nat) (st : SchedState) (day : Nat) :
    Option Nat :=
  (List.range (TIME_SLOTS.length + 1 - duration)).find? fun s =>
    check_scheduling_possibility faculty classroom day s duration
      st.professor_schedule st.classroom_schedule st.timetable

/-- Phase 1 of schedule_session: first feasible slot, days in sorted_days
order, slots in increasing order. -/
def phase1 (faculty classroom : String) (duration : Nat) (st : SchedState) :
    Option (Nat × Nat) :=
  (sorted_days st.timetable).findSome? fun day =>
    (find_slot faculty classroom duration st day).map fun s => (day, s)

/-- The day drawn at trial k: randint(0, len(DAYS) - 1). -/
def rnd_day (rnd : Nat → Nat × Nat) (k : Nat) : Nat := (rnd k).1 % DAYS.length

/-- The start slot drawn at trial k: randint(0, len(TIME_SLOTS) - duration),
meaningful only when duration does not exceed the slot count. -/
def rnd_slot (duration : Nat) (rnd : Nat → Nat × Nat) (k : Nat) : Nat :=
  (rnd k).2 % (TIME_SLOTS.length + 1 - duration)

/-- The phase-2 while loop of schedule_session, with remaining =
attempt_limit - attempts.  Each trial draws a day and then a start slot with
randint(0, len(TIME_SLOTS) - duration); when duration exceeds the slot count
that randint call has an empty range and raises ValueError, modelled as none. -/
def phase2_loop (faculty classroom session_type code name : String) (duration : Nat)
    (rnd : Nat → Nat × Nat) : Nat → Nat → SchedState → Option (SchedState × Outcome × Nat)
  | 0, attempts, st => some (st, .Failed, attempts)
  | remaining + 1, attempts, st =>
    if TIME_SLOTS.length < duration then none
    else
      if check_scheduling_possibility faculty classroom (rnd_day rnd attempts)
          (rnd_slot duration rnd attempts) duration
          st.professor_schedule st.classroom_schedule st.timetable then
        some (update_schedule faculty classroom (rnd_day rnd attempts)
            (rnd_slot duration rnd attempts) duration session_type code name st,
          .Scheduled (rnd_day rnd attempts) (rnd_slot duration rnd attempts), attempts + 1)
      else
        phase2_loop faculty classroom session_type code name duration rnd remaining
          (attempts + 1) st

/-- Session duration from the session type tag, as computed in schedule_session. -/
def duration_of (session_type : String) : Nat :=
  if session_type = "LAB" then LAB_DURATION
  else if contains_str session_type "LEC" then LECTURE_DURATION
  else TUTORIAL_DURATION

/-- schedule_session with the duration kept as an explicit parameter; the
result carries the final state, the outcome, and the number of phase-2 trials
performed (the amount of the random source consumed). -/
def schedule_session_core (faculty classroom session_type code name : String)
    (duration attempt_limit : Nat) (rnd : Nat → Nat × Nat) (st : SchedState) :
    Option (SchedState × Outcome × Nat) :=
  match phase1 faculty classroom duration st with
  | some (day, s) =>
    some (update_schedule faculty classroom day s duration session_type code name st,
      .Scheduled day s, 0)
  | none => phase2_loop faculty classroom session_type code name duration rnd attempt_limit 0 st

def schedule_session (faculty classroom session_type code name : String)
    (attempt_limit : Nat) (rnd : Nat → Nat × Nat) (st : SchedState) :
    Option (SchedState × Outcome × Nat) :=
  schedule_session_core faculty classroom session_type code name
    (duration_of session_type) attempt_limit rnd st

/-- The single global random source advanced by k consumed trials. -/
def shift_rnd (rnd : Nat → Nat × Nat) (k : Nat) : Nat → Nat × Nat := fun t => rnd (k + t)

def lec_label (i : Nat) : String := "LEC " ++ toString (i + 1)

def tut_label (i : Nat) : String := "TUT " ++ toString (i + 1)

/-- The loop body of handle_lectures over the loop indices, threading the
state, the random-source offset, the scheduled/failed counters, and the list
of session labels passed to schedule_session. -/
def handle_lectures_go (faculty classroom code name : String) (attempt_limit : Nat)
    (rnd : Nat → Nat × Nat) :
    List Nat → SchedState → Nat → Nat → Nat → List String →
    Option (SchedState × Nat × Nat × Nat × List String)
  | [], st, k, sc, fl, tr => some (st, sc, fl, k, tr)
  | i :: rest, st, k, sc, fl, tr =>
    match schedule_session faculty classroom (lec_label i) code name attempt_limit
        (shift_rnd rnd k) st with
    | none => none
    | some (st', oc, used) =>
      handle_lectures_go faculty classroom code name attempt_limit rnd rest st' (k + used)
        (if oc.isScheduled then sc + 1 else sc) (if oc.isScheduled then fl else fl + 1)
        (tr ++ [lec_label i])

/-- handle_lectures: with l = 3 the loop runs over range(2), otherwise over
range(l). -/
def handle_lectures (faculty classroom code name : String) (l : Nat) (attempt_limit : Nat)
    (rnd : Nat → Nat × Nat) (st : SchedState) :
    Option (SchedState × Nat × Nat × Nat × List String) :=
  handle_lectures_go faculty classroom code name attempt_limit rnd
    (if l = 3 then List.range 2 else List.range l) st 0 0 0 []

/-- The tutorial loop of the combined-course branch of generate_all_timetables,
threading state, random offset and the labels passed to schedule_session. -/
def tut_go (faculty classroom code name : String) (attempt_limit : Nat)
    (rnd : Nat → Nat × Nat) :
    List Nat → SchedState → Nat → List String → Option (SchedState × Nat × List String)
  | [], st, k, tr => some (st, k, tr)
  | i :: rest, st, k, tr =>
    match schedule_session faculty classroom (tut_label i) code name attempt_limit
        (shift_rnd rnd k) st with
    | none => none
    | some (st', _, used) =>
      tut_go faculty classroom code name attempt_limit rnd rest st' (k + used)
        (tr ++ [tut_label i])

def priority_departments : List String := ["DSAI", "ECE"]

/-- attempt_limit in generate_all_timetables:
int(MAX_SCHEDULING_ATTEMPTS * 1.5) for DSAI and ECE, the base otherwise
(the float product is exact, so it equals MAX * 3 / 2). -/
def attempt_limit_for (department : String) : Nat :=
  if department ∈ priority_departments then MAX_SCHEDULING_ATTEMPTS * 3 / 2
  else MAX_SCHEDULING_ATTEMPTS

/-- current_attempt_limit in the combined-course branch: doubled when the lab
failed (course_scheduled false) and the department is a priority department. -/
def escalated_limit (attempt_limit : Nat) (course_scheduled : Bool) (department : String) : Nat :=
  if !course_scheduled && decide (department ∈ priority_departments) then attempt_limit * 2
  else attempt_limit

/-- The lab-first step of the combined-course branch: when the course has a
lab (p > 0) it is scheduled with the base attempt limit and course_scheduled
becomes the lab outcome; otherwise course_scheduled stays true. -/
def lab_step (faculty classroom code name : String) (p attempt_limit : Nat)
    (rnd : Nat → Nat × Nat) (st : SchedState) :
    Option (SchedState × Bool × Nat × List (String × Nat)) :=
  if 0 < p then
    (schedule_session faculty classroom "LAB" code name attempt_limit rnd st).map
      (fun r => (r.1, r.2.1.isScheduled, r.2.2, [("LAB", attempt_limit)]))
  else some (st, true, 0, ([] : List (String × Nat)))

/-- The combined-course branch of generate_all_timetables for one course with
a lab and lecture/tutorial components: lab first with the base limit, then
lectures and tutorials with the escalated limit.  Returns the final state, the
course_scheduled flag after the lab step, and the trace of
(session label, attempt limit) pairs passed to schedule_session. -/
def process_combined_course (department faculty classroom code name : String) (p l t : Nat)
    (attempt_limit : Nat) (rnd : Nat → Nat × Nat) (st : SchedState) :
    Option (SchedState × Bool × List (String × Nat)) :=
  match lab_step faculty classroom code name p attempt_limit rnd st with
  | none => none
  | some (st1, course_scheduled, k1, lab_trace) =>
    match (if 0 < l then
        handle_lectures faculty classroom code name l
          (escalated_limit attempt_limit course_scheduled department) (shift_rnd rnd k1) st1
      else some (st1, 0, 0, 0, ([] : List String))) with
    | none => none
    | some (st2, _, _, k2, lec_trace) =>
      match tut_go faculty classroom code name
          (escalated_limit attempt_limit course_scheduled department)
          (shift_rnd rnd (k1 + k2)) (List.range t) st2 0 [] with
      | none => none
      | some (st3, _, tut_trace) =>
        some (st3, course_scheduled,
          lab_trace ++
            lec_trace.map (fun lbl => (lbl, escalated_limit attempt_limit course_scheduled department)) ++
            tut_trace.map (fun lbl => (lbl, escalated_limit attempt_limit course_scheduled department)))

/-- Modelled from the spec: the exemption condition the spec asserts for
classroom designators (flexible alternatives joined by slash or comma, or an
unresolved placeholder); compared against classroom_flexible from the source. -/
def classroom_exempt_spec (classroom : String) : Bool :=
  contains_char classroom '/' || contains_char classroom ',' ||
    starts_with classroom "TBD_" || contains_str classroom "Will be scheduled"

/-- The cell convention the spec claims for every committed multi-slot block
occupying slots [s, s + d). -/
def block_convention (tt : Nat → Nat → Cell) (day s d : Nat) : Prop :=
  0 < d ∧ (tt day s).is_first = true ∧ (tt day s).duration = d ∧ (tt day s).position = 0 ∧
  ∀ i, i < d → 1 ≤ i →
    (tt day (s + i)).is_first = false ∧ (tt day (s + i)).duration = 0 ∧
    (tt day (s + i)).position = i ∧ (tt day (s + i)).type = (tt day s).type

structure Session where
  faculty : String
  classroom : String
  day : Nat
  start_slot : Nat
  duration : Nat
deriving DecidableEq

def Session.occupies (s : Session) (d sl : Nat) : Prop :=
  d = s.day ∧ s.start_slot ≤ sl ∧ sl < s.start_slot + s.duration

/-- Every committed session with a non-flexible faculty designator has all of
its slots recorded for that faculty in the professor schedule. -/
def prof_records (st : SchedState) (committed : List Session) : Prop :=
  ∀ s ∈ committed, faculty_flexible s.faculty = false →
    ∀ i, i < s.duration → s.start_slot + i ∈ st.professor_schedule s.faculty s.day

/-- No two committed sessions with the same non-flexible faculty designator
occupy a common (day, slot) pair. -/
def no_double_booking (committed : List Session) : Prop :=
  ∀ i j, (hi : i < committed.length) → (hj : j < committed.length) → i ≠ j →
    faculty_flexible (committed.get ⟨i, hi⟩).faculty = false →
    (committed.get ⟨i, hi⟩).faculty = (committed.get ⟨j, hj⟩).faculty →
    ∀ d sl, ¬((committed.get ⟨i, hi⟩).occupies d sl ∧ (committed.get ⟨j, hj⟩).occupies d sl)

/-- An all-empty grid, an all-full grid, and small fixed states and sources
used in concrete evaluations. -/
def full_cell : Cell := ⟨some "LEC 1", "X", "X", "X", "X", 3, true, 0⟩

def full_state : SchedState := ⟨fun _ _ => ∅, fun _ _ => ∅, fun _ _ => full_cell⟩

def rnd_zero : Nat → Nat × Nat := fun _ => (0, 0)

/-- The strict lexicographic order on (load d, d) used to state that
sorted_days really sorts ascending by load, ties broken by day index. -/
def lex_lt (load : Nat → Nat) (a b : Nat) : Prop :=
  load a < load b ∨ (load a = load b ∧ a < b)

def empty_sched : String → Nat → Finset Nat := fun _ _ => ∅

def empty_grid : Nat → Nat → Cell := fun _ _ => init_cell

/-- A classroom schedule with the compound designator booked at Monday slot 0. -/
def cs_booked : String → Nat → Finset Nat :=
  fun n d => if n = "R1/R2" ∧ d = 0 then {0} else ∅

/-- The conditions of the feasibility predicate named by claim C2 (slot in
range, free grid cell, no morning break, faculty availability when the
faculty designator is not flexible). -/
def feasibility_necessary_conditions (f : String) (day s dur : Nat)
    (ps : String → Nat → Finset Nat) (tt : Nat → Nat → Cell) : Prop :=
  ∀ i, i < dur →
    (s + i < TIME_SLOTS.length ∧ (tt day (s + i)).type = none ∧
     is_morning_break (TIME_SLOTS.getD (s + i) (0, 0)) = false ∧
     (faculty_flexible f = false → (s + i) ∉ ps f day))

/- ------------------------------------------------------------------ -/
/- Helper lemmas.                                                      -/
/- ------------------------------------------------------------------ -/

lemma check_eq_true_iff (f c : String) (day s d : Nat)
    (ps cs : String → Nat → Finset Nat) (tt : Nat → Nat → Cell) :
    check_scheduling_possibility f c day s d ps cs tt = true ↔
      ∀ i, i < d →
        (s + i < TIME_SLOTS.length ∧ (tt day (s + i)).type = none ∧
         is_morning_break (TIME_SLOTS.getD (s + i) (0, 0)) = false ∧
         (faculty_flexible f = false → (s + i) ∉ ps f day) ∧
         (classroom_flexible c = false → (s + i) ∉ cs c day)) := by
  unfold check_scheduling_possibility
  rw [List.all_eq_true]
  constructor
  · intro h i hi
    have hb := h i (List.mem_range.mpr hi)
    simp only [Bool.and_eq_true, Bool.or_eq_true, Bool.not_eq_true',
      decide_eq_true_eq, decide_eq_false_iff_not, beq_iff_eq] at hb
    obtain ⟨⟨⟨⟨h1, h2⟩, h3⟩, h4⟩, h5⟩ := hb
    refine ⟨h1, h2, h3, ?_, ?_⟩
    · intro hff
      rcases h4 with h4 | h4
      · exact absurd h4 (by simp [hff])
      · exact h4
    · intro hcf
      rcases h5 with h5 | h5
      · exact absurd h5 (by simp [hcf])
      · exact h5
  · intro h x hx
    rw [List.mem_range] at hx
    obtain ⟨h1, h2, h3, h4, h5⟩ := h x hx
    simp only [Bool.and_eq_true, Bool.or_eq_true, Bool.not_eq_true',
      decide_eq_true_eq, decide_eq_false_iff_not, beq_iff_eq]
    refine ⟨⟨⟨⟨h1, h2⟩, h3⟩, ?_⟩, ?_⟩
    · cases hf : faculty_flexible f
      · exact Or.inr (h4 hf)
      · exact Or.inl rfl
    · cases hc : classroom_flexible c
      · exact Or.inr (h5 hc)
      · exact Or.inl rfl

lemma check_eq_false_of_mem_prof (f c : String) (day s d : Nat)
    (ps cs : String → Nat → Finset Nat) (tt : Nat → Nat → Cell)
    (hf : faculty_flexible f = false) (i : Nat) (hi : i < d)
    (hmem : (s + i) ∈ ps f day) :
    check_scheduling_possibility f c day s d ps cs tt = false := by
  cases hch : check_scheduling_possibility f c day s d ps cs tt
  · rfl
  · exact absurd hmem (((check_eq_true_iff f c day s d ps cs tt).mp hch i hi).2.2.2.1 hf)

lemma mem_add_slot (sched : String → Nat → Finset Nat) (nm : String) (day v : Nat)
    (n : String) (d x : Nat) :
    x ∈ add_slot sched nm day v n d ↔ x ∈ sched n d ∨ (n = nm ∧ d = day ∧ x = v) := by
  unfold add_slot
  by_cases h : n = nm ∧ d = day
  · rw [if_pos h, Finset.mem_insert]
    constructor
    · rintro (rfl | hx)
      · exact Or.inr ⟨h.1, h.2, rfl⟩
      · exact Or.inl hx
    · rintro (hx | ⟨_, _, rfl⟩)
      · exact Or.inr hx
      · exact Or.inl rfl
  · rw [if_neg h]
    constructor
    · exact Or.inl
    · rintro (hx | ⟨h1, h2, _⟩)
      · exact hx
      · exact absurd ⟨h1, h2⟩ h

lemma mem_foldl_add_slot (names : List String) (ps : String → Nat → Finset Nat)
    (day v : Nat) (n : String) (d x : Nat) :
    x ∈ (names.foldl (fun acc f => add_slot acc f day v) ps) n d ↔
      x ∈ ps n d ∨ (n ∈ names ∧ d = day ∧ x = v) := by
  induction names generalizing ps with
  | nil => simp
  | cons f rest ih =>
    rw [List.foldl_cons, ih, mem_add_slot]
    simp only [List.mem_cons]
    constructor
    · rintro ((hx | ⟨rfl, h2, h3⟩) | ⟨h1, h2, h3⟩)
      · exact Or.inl hx
      · exact Or.inr ⟨Or.inl rfl, h2, h3⟩
      · exact Or.inr ⟨Or.inr h1, h2, h3⟩
    · rintro (hx | ⟨(rfl | h1), h2, h3⟩)
      · exact Or.inl (Or.inl hx)
      · exact Or.inl (Or.inr ⟨rfl, h2, h3⟩)
      · exact Or.inr ⟨h1, h2, h3⟩

lemma foldl_update_ps (f c : String) (day s dur : Nat) (ty co na : String)
    (st : SchedState) (n : String) (dd x : Nat) :
    ∀ m, x ∈ ((List.range m).foldl (update_step f c day s dur ty co na) st).professor_schedule n dd ↔
      x ∈ st.professor_schedule n dd ∨ (n ∈ split_faculty f ∧ dd = day ∧ s ≤ x ∧ x < s + m) := by
  intro m
  induction m with
  | zero => simp
  | succ m ih =>
    rw [List.range_succ, List.foldl_append, List.foldl_cons, List.foldl_nil]
    show x ∈ (update_step f c day s dur ty co na _ m).professor_schedule n dd ↔ _
    rw [update_step, mem_foldl_add_slot]
    show (x ∈ ((List.range m).foldl (update_step f c day s dur ty co na) st).professor_schedule n dd
        ∨ _) ↔ _
    rw [ih]
    constructor
    · rintro ((hx | ⟨h1, h2, h3, h4⟩) | ⟨h1, h2, h3⟩)
      · exact Or.inl hx
      · exact Or.inr ⟨h1, h2, h3, by omega⟩
      · exact Or.inr ⟨h1, h2, by omega, by omega⟩
    · rintro (hx | ⟨h1, h2, h3, h4⟩)
      · exact Or.inl (Or.inl hx)
      · by_cases hxm : x = s + m
        · exact Or.inr ⟨h1, h2, hxm⟩
        · exact Or.inl (Or.inr ⟨h1, h2, h3, by omega⟩)

lemma foldl_update_cs (f c : String) (day s dur : Nat) (ty co na : String)
    (st : SchedState) (n : String) (dd x : Nat) :
    ∀ m, x ∈ ((List.range m).foldl (update_step f c day s dur ty co na) st).classroom_schedule n dd ↔
      x ∈ st.classroom_schedule n dd ∨ (n = c ∧ dd = day ∧ s ≤ x ∧ x < s + m) := by
  intro m
  induction m with
  | zero => simp
  | succ m ih =>
    rw [List.range_succ, List.foldl_append, List.foldl_cons, List.foldl_nil]
    show x ∈ (update_step f c day s dur ty co na _ m).classroom_schedule n dd ↔ _
    rw [update_step, mem_add_slot]
    show (x ∈ ((List.range m).foldl (update_step f c day s dur ty co na) st).classroom_schedule n dd
        ∨ _) ↔ _
    rw [ih]
    constructor
    · rintro ((hx | ⟨h1, h2, h3, h4⟩) | ⟨h1, h2, h3⟩)
      · exact Or.inl hx
      · exact Or.inr ⟨h1, h2, h3, by omega⟩
      · exact Or.inr ⟨h1, h2, by omega, by omega⟩
    · rintro (hx | ⟨h1, h2, h3, h4⟩)
      · exact Or.inl (Or.inl hx)
      · by_cases hxm : x = s + m
        · exact Or.inr ⟨h1, h2, hxm⟩
        · exact Or.inl (Or.inr ⟨h1, h2, h3, by omega⟩)

lemma foldl_update_tt (f c : String) (day s dur : Nat) (ty co na : String)
    (st : SchedState) (dd ss : Nat) :
    ∀ m, ((List.range m).foldl (update_step f c day s dur ty co na) st).timetable dd ss =
      if dd = day ∧ s ≤ ss ∧ ss < s + m then session_cell f c ty co na dur (ss - s)
      else st.timetable dd ss := by
  intro m
  induction m with
  | zero =>
    rw [List.range_zero, List.foldl_nil, if_neg]
    rintro ⟨_, h1, h2⟩
    omega
  | succ m ih =>
    rw [List.range_succ, List.foldl_append, List.foldl_cons, List.foldl_nil]
    show (update_step f c day s dur ty co na _ m).timetable dd ss = _
    rw [update_step]
    show write_cell ((List.range m).foldl (update_step f c day s dur ty co na) st).timetable
        day (s + m) (session_cell f c ty co na dur m) dd ss = _
    rw [write_cell, ih]
    by_cases hlast : dd = day ∧ ss = s + m
    · rw [if_pos hlast, if_pos ⟨hlast.1, by omega, by omega⟩]
      have : ss - s = m := by omega
      rw [this]
    · rw [if_neg hlast]
      by_cases hmid : dd = day ∧ s ≤ ss ∧ ss < s + m
      · rw [if_pos hmid, if_pos ⟨hmid.1, hmid.2.1, by omega⟩]
      · rw [if_neg hmid, if_neg (by intro hc; exact hmid ⟨hc.1, hc.2.1, by omega⟩)]

lemma update_schedule_ps_mem (f c : String) (day s dur : Nat) (ty co na : String)
    (st : SchedState) (n : String) (dd x : Nat) :
    x ∈ (update_schedule f c day s dur ty co na st).professor_schedule n dd ↔
      x ∈ st.professor_schedule n dd ∨ (n ∈ split_faculty f ∧ dd = day ∧ s ≤ x ∧ x < s + dur) :=
  foldl_update_ps f c day s dur ty co na st n dd x dur

lemma update_schedule_cs_mem (f c : String) (day s dur : Nat) (ty co na : String)
    (st : SchedState) (n : String) (dd x : Nat) :
    x ∈ (update_schedule f c day s dur ty co na st).classroom_schedule n dd ↔
      x ∈ st.classroom_schedule n dd ∨ (n = c ∧ dd = day ∧ s ≤ x ∧ x < s + dur) :=
  foldl_update_cs f c day s dur ty co na st n dd x dur

lemma update_schedule_tt (f c : String) (day s dur : Nat) (ty co na : String)
    (st : SchedState) (dd ss : Nat) :
    (update_schedule f c day s dur ty co na st).timetable dd ss =
      if dd = day ∧ s ≤ ss ∧ ss < s + dur then session_cell f c ty co na dur (ss - s)
      else st.timetable dd ss :=
  foldl_update_tt f c day s dur ty co na st dd ss dur

lemma split_faculty_self (f : String) (hf : faculty_flexible f = false) :
    split_faculty f = [f] := by
  unfold split_faculty
  rw [if_neg]
  intro h
  unfold faculty_flexible at hf
  rw [h] at hf
  exact absurd hf (by simp)

lemma find?_append_none {α : Type} {p : α → Bool} :
    ∀ {l₁ : List α} (l₂ : List α), l₁.find? p = none → (l₁ ++ l₂).find? p = l₂.find? p
  | [], _, _ => rfl
  | a :: l₁, l₂, h => by
    rw [List.cons_append]
    cases hpa : p a with
    | true =>
      rw [List.find?_cons_of_pos _ hpa] at h
      exact absurd h (by simp)
    | false =>
      rw [List.find?_cons_of_neg _ (by simp [hpa])] at h
      rw [List.find?_cons_of_neg _ (by simp [hpa])]
      exact find?_append_none l₂ h

lemma find?_append_some {α : Type} {p : α → Bool} :
    ∀ {l₁ : List α} (l₂ : List α) {x : α}, l₁.find? p = some x → (l₁ ++ l₂).find? p = some x
  | [], _, _, h => by simp [List.find?] at h
  | a :: l₁, l₂, x, h => by
    rw [List.cons_append]
    cases hpa : p a with
    | true =>
      rw [List.find?_cons_of_pos _ hpa] at h
      rw [List.find?_cons_of_pos _ hpa]
      exact h
    | false =>
      rw [List.find?_cons_of_neg _ (by simp [hpa])] at h
      rw [List.find?_cons_of_neg _ (by simp [hpa])]
      exact find?_append_some l₂ h

lemma find?_range_some {p : Nat → Bool} :
    ∀ {n s : Nat}, (List.range n).find? p = some s →
      p s = true ∧ s < n ∧ ∀ t, t < s → p t = false := by
  intro n
  induction n with
  | zero => intro s h; simp [List.range_zero, List.find?] at h
  | succ n ih =>
    intro s h
    rw [List.range_succ] at h
    cases hfind : (List.range n).find? p with
    | some s' =>
      rw [find?_append_some _ hfind] at h
      have hs : s' = s := by injection h
      subst hs
      obtain ⟨h1, h2, h3⟩ := ih hfind
      exact ⟨h1, Nat.lt_succ_of_lt h2, h3⟩
    | none =>
      rw [find?_append_none _ hfind] at h
      have hnone : ∀ t, t < n → p t = false := by
        intro t ht
        have := List.find?_eq_none.mp hfind t (List.mem_range.mpr ht)
        cases hpt : p t
        · rfl
        · exact absurd hpt this
      cases hpn : p n with
      | true =>
        rw [List.find?_cons_of_pos _ hpn] at h
        have hs : n = s := by injection h
        subst hs
        exact ⟨hpn, Nat.lt_succ_self n, hnone⟩
      | false =>
        rw [List.find?_cons_of_neg _ (by simp [hpn])] at h
        simp [List.find?] at h

lemma find?_range_none {p : Nat → Bool} {n : Nat}
    (h : ∀ t, t < n → p t = false) : (List.range n).find? p = none := by
  rw [List.find?_eq_none]
  intro t ht hpt
  rw [h t (List.mem_range.mp ht)] at hpt
  exact absurd hpt (by simp)

lemma findSome?_eq_none_of {α β : Type} {f : α → Option β} :
    ∀ {l : List α}, (∀ x ∈ l, f x = none) → l.findSome? f = none
  | [], _ => rfl
  | a :: l, h => by
    rw [List.findSome?_cons, h a (List.mem_cons_self a l)]
    exact findSome?_eq_none_of fun x hx => h x (List.mem_cons_of_mem a hx)

lemma findSome?_eq_some_split {α β : Type} {f : α → Option β} :
    ∀ {l : List α} {b : β}, l.findSome? f = some b →
      ∃ l₁ a l₂, l = l₁ ++ a :: l₂ ∧ f a = some b ∧ ∀ x ∈ l₁, f x = none := by
  intro l
  induction l with
  | nil => intro b h; simp [List.findSome?] at h
  | cons a l ih =>
    intro b h
    rw [List.findSome?_cons] at h
    cases hfa : f a with
    | some b' =>
      rw [hfa] at h
      have hb : some b' = some b := h
      refine ⟨[], a, l, by simp, ?_, by simp⟩
      rw [hfa]
      exact hb
    | none =>
      rw [hfa] at h
      have h' : List.findSome? f l = some b := h
      obtain ⟨l₁, a', l₂, heq, hfa', hnone⟩ := ih h'
      refine ⟨a :: l₁, a', l₂, by rw [heq, List.cons_append], hfa', ?_⟩
      intro x hx
      rcases List.mem_cons.mp hx with rfl | hx
      · exact hfa
      · exact hnone x hx

lemma sorted_insert_perm (load : Nat → Nat) (d : Nat) :
    ∀ l : List Nat, (sorted_insert load d l).Perm (d :: l)
  | [] => List.Perm.refl _
  | e :: rest => by
    unfold sorted_insert
    split
    · exact List.Perm.refl _
    · exact (List.Perm.cons e (sorted_insert_perm load d rest)).trans
        (List.Perm.swap d e rest)

lemma sorted_insert_pairwise (load : Nat → Nat) (d : Nat) :
    ∀ {l : List Nat}, l.Pairwise (lex_lt load) → (∀ e ∈ l, d ≠ e) →
      (sorted_insert load d l).Pairwise (lex_lt load)
  | [], _, _ => by
    unfold sorted_insert
    exact List.pairwise_singleton _ d
  | e :: rest, hp, hd => by
    unfold sorted_insert
    split
    case isTrue h =>
      refine List.Pairwise.cons ?_ hp
      intro x hx
      rcases List.mem_cons.mp hx with rfl | hx
      · exact h
      · have hex : lex_lt load e x := (List.pairwise_cons.mp hp).1 x hx
        unfold lex_lt at hex ⊢
        omega
    case isFalse h =>
      have hde : d ≠ e := hd e (List.mem_cons_self e rest)
      refine List.Pairwise.cons ?_
        (sorted_insert_pairwise load d (List.pairwise_cons.mp hp).2
          (fun x hx => hd x (List.mem_cons_of_mem e hx)))
      intro x hx
      have hx' : x ∈ d :: rest := ((sorted_insert_perm load d rest).mem_iff).mp hx
      rcases List.mem_cons.mp hx' with rfl | hx'
      · unfold lex_lt
        omega
      · exact (List.pairwise_cons.mp hp).1 x hx'

lemma foldr_sorted_insert_perm (load : Nat → Nat) :
    ∀ l : List Nat, (l.foldr (sorted_insert load) []).Perm l
  | [] => List.Perm.refl _
  | a :: l => by
    rw [List.foldr_cons]
    exact (sorted_insert_perm load a _).trans
      (List.Perm.cons a (foldr_sorted_insert_perm load l))

lemma foldr_sorted_insert_pairwise (load : Nat → Nat) :
    ∀ {l : List Nat}, l.Nodup → (l.foldr (sorted_insert load) []).Pairwise (lex_lt load)
  | [], _ => List.Pairwise.nil
  | a :: l, hnd => by
    rw [List.foldr_cons]
    refine sorted_insert_pairwise load a
      (foldr_sorted_insert_pairwise load (List.Nodup.of_cons hnd)) ?_
    intro e he
    have hel : e ∈ l := ((foldr_sorted_insert_perm load l).mem_iff).mp he
    intro hae
    exact (List.nodup_cons.mp hnd).1 (hae ▸ hel)

lemma sorted_days_perm (tt : Nat → Nat → Cell) :
    (sorted_days tt).Perm (List.range DAYS.length) :=
  foldr_sorted_insert_perm (day_load tt) (List.range DAYS.length)

lemma sorted_days_pairwise (tt : Nat → Nat → Cell) :
    (sorted_days tt).Pairwise (lex_lt (day_load tt)) :=
  foldr_sorted_insert_pairwise (day_load tt) (List.nodup_range DAYS.length)

lemma phase2_loop_failed {f c ty co na : String} {dur : Nat} {rnd : Nat → Nat × Nat} :
    ∀ {r a : Nat} {st st' : SchedState} {k : Nat},
      phase2_loop f c ty co na dur rnd r a st = some (st', .Failed, k) →
      st' = st ∧ k = a + r := by
  intro r
  induction r with
  | zero =>
    intro a st st' k h
    rw [phase2_loop] at h
    have h1 := Option.some.inj h
    have hst : st = st' := congrArg (fun x => x.1) h1
    have hk : a = k := congrArg (fun x => x.2.2) h1
    exact ⟨hst.symm, by omega⟩
  | succ r ih =>
    intro a st st' k h
    rw [phase2_loop] at h
    by_cases hdur : TIME_SLOTS.length < dur
    · rw [if_pos hdur] at h
      exact absurd h (by simp)
    · rw [if_neg hdur] at h
      by_cases hch : check_scheduling_possibility f c (rnd_day rnd a)
          (rnd_slot dur rnd a) dur st.professor_schedule st.classroom_schedule st.timetable = true
      · rw [if_pos hch] at h
        have := congrArg (fun x => x.2.1) (Option.some.inj h)
        exact absurd this (by simp)
      · rw [if_neg hch] at h
        obtain ⟨h1, h2⟩ := ih h
        exact ⟨h1, by omega⟩

lemma phase2_loop_scheduled {f c ty co na : String} {dur : Nat} {rnd : Nat → Nat × Nat} :
    ∀ {r a : Nat} {st st' : SchedState} {d sl k : Nat},
      phase2_loop f c ty co na dur rnd r a st = some (st', .Scheduled d sl, k) →
      st' = update_schedule f c d sl dur ty co na st ∧
        check_scheduling_possibility f c d sl dur
          st.professor_schedule st.classroom_schedule st.timetable = true := by
  intro r
  induction r with
  | zero =>
    intro a st st' d sl k h
    rw [phase2_loop] at h
    have := congrArg (fun x => x.2.1) (Option.some.inj h)
    exact absurd this (by simp)
  | succ r ih =>
    intro a st st' d sl k h
    rw [phase2_loop] at h
    by_cases hdur : TIME_SLOTS.length < dur
    · rw [if_pos hdur] at h
      exact absurd h (by simp)
    · rw [if_neg hdur] at h
      by_cases hch : check_scheduling_possibility f c (rnd_day rnd a)
          (rnd_slot dur rnd a) dur st.professor_schedule st.classroom_schedule st.timetable = true
      · rw [if_pos hch] at h
        have hout : Outcome.Scheduled (rnd_day rnd a) (rnd_slot dur rnd a) = .Scheduled d sl :=
          congrArg (fun x => x.2.1) (Option.some.inj h)
        have hd : rnd_day rnd a = d := by injection hout
        have hsl : rnd_slot dur rnd a = sl := by injection hout
        have hst : update_schedule f c (rnd_day rnd a) (rnd_slot dur rnd a) dur ty co na st = st' :=
          congrArg (fun x => x.1) (Option.some.inj h)
        subst hd hsl
        exact ⟨hst.symm, hch⟩
      · rw [if_neg hch] at h
        exact ih h

lemma phase2_loop_isSome {f c ty co na : String} {dur : Nat} {rnd : Nat → Nat × Nat}
    (hdur : ¬ TIME_SLOTS.length < dur) :
    ∀ (r a : Nat) (st : SchedState),
      (phase2_loop f c ty co na dur rnd r a st).isSome = true := by
  intro r
  induction r with
  | zero => intro a st; rw [phase2_loop]; rfl
  | succ r ih =>
    intro a st
    rw [phase2_loop, if_neg hdur]
    by_cases hch : check_scheduling_possibility f c (rnd_day rnd a)
        (rnd_slot dur rnd a) dur st.professor_schedule st.classroom_schedule st.timetable = true
    · rw [if_pos hch]; rfl
    · rw [if_neg hch]; exact ih (a + 1) st

lemma phase2_loop_exhaust {f c ty co na : String} {dur : Nat} {rnd : Nat → Nat × Nat}
    (hdur : ¬ TIME_SLOTS.length < dur) :
    ∀ (r a : Nat) (st : SchedState),
      (∀ m, a ≤ m → m < a + r →
        check_scheduling_possibility f c (rnd_day rnd m) (rnd_slot dur rnd m) dur
          st.professor_schedule st.classroom_schedule st.timetable = false) →
      phase2_loop f c ty co na dur rnd r a st = some (st, .Failed, a + r) := by
  intro r
  induction r with
  | zero => intro a st _; rw [phase2_loop, Nat.add_zero]
  | succ r ih =>
    intro a st h
    rw [phase2_loop, if_neg hdur, if_neg (by rw [h a (Nat.le_refl a) (by omega)]; simp)]
    have := ih (a + 1) st (fun m hm1 hm2 => h m (by omega) (by omega))
    rw [this]
    have : a + 1 + r = a + (r + 1) := by omega
    rw [this]

lemma phase2_loop_first_success {f c ty co na : String} {dur : Nat} {rnd : Nat → Nat × Nat}
    (hdur : ¬ TIME_SLOTS.length < dur) :
    ∀ (r a : Nat) (st : SchedState) (m : Nat), a ≤ m → m < a + r →
      (∀ t, a ≤ t → t < m →
        check_scheduling_possibility f c (rnd_day rnd t) (rnd_slot dur rnd t) dur
          st.professor_schedule st.classroom_schedule st.timetable = false) →
      check_scheduling_possibility f c (rnd_day rnd m) (rnd_slot dur rnd m) dur
        st.professor_schedule st.classroom_schedule st.timetable = true →
      phase2_loop f c ty co na dur rnd r a st =
        some (update_schedule f c (rnd_day rnd m) (rnd_slot dur rnd m) dur ty co na st,
          .Scheduled (rnd_day rnd m) (rnd_slot dur rnd m), m + 1) := by
  intro r
  induction r with
  | zero => intro a st m h1 h2 _ _; omega
  | succ r ih =>
    intro a st m h1 h2 hprior hm
    rw [phase2_loop, if_neg hdur]
    by_cases ham : a = m
    · subst ham
      rw [if_pos hm]
    · rw [if_neg (by rw [hprior a (Nat.le_refl a) (by omega)]; simp)]
      exact ih (a + 1) st m (by omega) (by omega) (fun t ht1 ht2 => hprior t (by omega) ht2) hm

lemma phase2_loop_rnd_congr {f c ty co na : String} {dur : Nat} {rnd rnd' : Nat → Nat × Nat} :
    ∀ (r a : Nat) (st : SchedState),
      (∀ t, a ≤ t → t < a + r → rnd t = rnd' t) →
      phase2_loop f c ty co na dur rnd r a st = phase2_loop f c ty co na dur rnd' r a st := by
  intro r
  induction r with
  | zero => intro a st _; rw [phase2_loop, phase2_loop]
  | succ r ih =>
    intro a st h
    have hday : rnd_day rnd a = rnd_day rnd' a := by
      unfold rnd_day; rw [h a (Nat.le_refl a) (by omega)]
    have hslot : rnd_slot dur rnd a = rnd_slot dur rnd' a := by
      unfold rnd_slot; rw [h a (Nat.le_refl a) (by omega)]
    rw [phase2_loop, phase2_loop, hday, hslot, ih (a + 1) st
      (fun t ht1 ht2 => h t (by omega) (by omega))]

lemma phase2_loop_overflow {f c ty co na : String} {dur : Nat} {rnd : Nat → Nat × Nat}
    (hdur : TIME_SLOTS.length < dur) (r a : Nat) (st : SchedState) (hr : 0 < r) :
    phase2_loop f c ty co na dur rnd r a st = none := by
  cases r with
  | zero => omega
  | succ r => rw [phase2_loop, if_pos hdur]

lemma duration_of_le (ty : String) : ¬ TIME_SLOTS.length < duration_of ty := by
  unfold duration_of
  split
  · decide
  · split
    · decide
    · decide

lemma schedule_session_isSome (f c ty co na : String) (lim : Nat)
    (rnd : Nat → Nat × Nat) (st : SchedState) :
    (schedule_session f c ty co na lim rnd st).isSome = true := by
  unfold schedule_session schedule_session_core
  cases hp : phase1 f c (duration_of ty) st with
  | some p => cases p; rfl
  | none => exact phase2_loop_isSome (duration_of_le ty) lim 0 st

lemma handle_lectures_go_trace (f c co na : String) (lim : Nat) (rnd : Nat → Nat × Nat) :
    ∀ (idxs : List Nat) (st : SchedState) (k sc fl : Nat) (tr : List String),
      (handle_lectures_go f c co na lim rnd idxs st k sc fl tr).map (fun r => r.2.2.2.2) =
        some (tr ++ idxs.map lec_label)
  | [], st, k, sc, fl, tr => by simp [handle_lectures_go]
  | i :: rest, st, k, sc, fl, tr => by
    obtain ⟨r, hr⟩ := Option.isSome_iff_exists.mp
      (schedule_session_isSome f c (lec_label i) co na lim (shift_rnd rnd k) st)
    obtain ⟨st', oc, used⟩ := r
    rw [handle_lectures_go, hr]
    show (handle_lectures_go f c co na lim rnd rest st' (k + used)
        (if oc.isScheduled then sc + 1 else sc) (if oc.isScheduled then fl else fl + 1)
        (tr ++ [lec_label i])).map (fun r => r.2.2.2.2) = some (tr ++ (i :: rest).map lec_label)
    rw [handle_lectures_go_trace f c co na lim rnd rest]
    simp

lemma tut_go_trace (f c co na : String) (lim : Nat) (rnd : Nat → Nat × Nat) :
    ∀ (idxs : List Nat) (st : SchedState) (k : Nat) (tr : List String),
      (tut_go f c co na lim rnd idxs st k tr).map (fun r => r.2.2) =
        some (tr ++ idxs.map tut_label)
  | [], st, k, tr => by simp [tut_go]
  | i :: rest, st, k, tr => by
    obtain ⟨r, hr⟩ := Option.isSome_iff_exists.mp
      (schedule_session_isSome f c (tut_label i) co na lim (shift_rnd rnd k) st)
    obtain ⟨st', oc, used⟩ := r
    rw [tut_go, hr]
    show (tut_go f c co na lim rnd rest st' (k + used) (tr ++ [tut_label i])).map
        (fun r => r.2.2) = some (tr ++ (i :: rest).map tut_label)
    rw [tut_go_trace f c co na lim rnd rest]
    simp

lemma lab_step_trace (f c co na : String) (p limit : Nat) (rnd : Nat → Nat × Nat)
    (st st1 : SchedState) (cs : Bool) (k1 : Nat) (labtr : List (String × Nat)) :
    lab_step f c co na p limit rnd st = some (st1, cs, k1, labtr) →
    ∀ e ∈ labtr, e.1 = "LAB" ∧ e.2 = limit := by
  unfold lab_step
  split
  · intro h e he
    obtain ⟨r, _, heq⟩ := Option.map_eq_some'.mp h
    have htr : labtr = [("LAB", limit)] := (congrArg (fun x => x.2.2.2) heq).symm
    rw [htr] at he
    have := List.mem_singleton.mp he
    rw [this]
    exact ⟨rfl, rfl⟩
  · intro h e he
    have htr : labtr = [] := (congrArg (fun x => x.2.2.2) (Option.some.inj h)).symm
    rw [htr] at he
    exact absurd he (List.not_mem_nil e)

/-- C2: the feasibility check accepts a candidate (day, startSlot, duration)
only if every slot index in the range is within the slot count, its grid cell
holds no session of any type, it is not a morning-break slot, and - when the
faculty designator is not flexible - it is not recorded as occupied for that
faculty on that day; failing any one of these at any slot rejects the whole
candidate. -/
theorem C2_feasibility_only_if (f c : String) (day s dur : Nat)
    (ps cs : String → Nat → Finset Nat) (tt : Nat → Nat → Cell)
    (h : check_scheduling_possibility f c day s dur ps cs tt = true) :
    feasibility_necessary_conditions f day s dur ps tt := by
  intro i hi
  obtain ⟨h1, h2, h3, h4, _⟩ := (check_eq_true_iff f c day s dur ps cs tt).mp h i hi
  exact ⟨h1, h2, h3, h4⟩

theorem C2_feasibility_only_if_witness :
    check_scheduling_possibility "FacA" "Room1" 0 0 3 empty_sched empty_sched empty_grid = true ∧
    feasibility_necessary_conditions "FacA" 0 0 3 empty_sched empty_grid :=
  ⟨by decide,
   C2_feasibility_only_if "FacA" "Room1" 0 0 3 empty_sched empty_sched empty_grid (by decide)⟩

/-- C3 counterexample: the claim says a classroom designator joining
alternatives with a slash is exempt from the classroom-availability conflict
check, but the source's classroom_flexible only exempts placeholders, so the
occupied set of the compound name "R1/R2" does change the outcome: with slot
0 booked for it the candidate is rejected, with an empty schedule it is
accepted. -/
theorem C3_counterexample :
    classroom_exempt_spec "R1/R2" = true ∧
    classroom_flexible "R1/R2" = false ∧
    check_scheduling_possibility "FacA" "R1/R2" 0 0 1 empty_sched cs_booked empty_grid = false ∧
    check_scheduling_possibility "FacA" "R1/R2" 0 0 1 empty_sched empty_sched empty_grid = true := by
  decide

/-- C3 (amended): a classroom designator is exempt from the classroom
availability conflict check exactly when it is an unresolved placeholder
(prefixed TBD_ or containing "Will be scheduled"); a flexible slash/comma
designator is not exempt.  For an exempt designator the check never consults
the classroom schedule; for every other designator every slot of an accepted
candidate range is absent from that classroom's occupied set (so any overlap
rejects the candidate). -/
theorem C3_classroom_exemption (f c : String) (day s dur : Nat)
    (ps cs cs' : String → Nat → Finset Nat) (tt : Nat → Nat → Cell) :
    (classroom_flexible c = true →
      check_scheduling_possibility f c day s dur ps cs tt =
        check_scheduling_possibility f c day s dur ps cs' tt) ∧
    (classroom_flexible c = false →
      check_scheduling_possibility f c day s dur ps cs tt = true →
      ∀ i, i < dur → (s + i) ∉ cs c day) := by
  constructor
  · intro hflex
    simp [check_scheduling_possibility, hflex]
  · intro hflex hch i hi
    exact ((check_eq_true_iff f c day s dur ps cs tt).mp hch i hi).2.2.2.2 hflex

theorem C3_classroom_exemption_witness :
    (check_scheduling_possibility "FacA" "TBD_X" 0 0 1 empty_sched cs_booked empty_grid =
      check_scheduling_possibility "FacA" "TBD_X" 0 0 1 empty_sched empty_sched empty_grid) ∧
    (0 + 0) ∉ empty_sched "R9" 0 :=
  ⟨(C3_classroom_exemption "FacA" "TBD_X" 0 0 1 empty_sched cs_booked empty_sched
      empty_grid).1 (by decide),
   (C3_classroom_exemption "FacA" "R9" 0 0 3 empty_sched empty_sched empty_sched
      empty_grid).2 (by decide) (by decide) 0 (by decide)⟩

lemma get_append_last {α : Type} (l : List α) (a : α) (idx : Nat)
    (h : idx < (l ++ [a]).length) :
    (l ++ [a]).get ⟨idx, h⟩ = if hke : idx < l.length then l.get ⟨idx, hke⟩ else a := by
  by_cases hke : idx < l.length
  · rw [dif_pos hke, List.get_append idx hke]
  · rw [dif_neg hke]
    have hlen : (l ++ [a]).length = l.length + 1 := by simp
    have hidx : idx = l.length := by omega
    subst hidx
    rw [List.get_eq_getElem, List.getElem_append_right (Nat.le_refl l.length)]
    simp

/-- C1: across the whole run, for every faculty name whose designator is not
flexible, no two committed sessions overlap on a (day, slot) pair: a commit
guarded by the feasibility check preserves (i) the recording of every
non-flexible faculty's committed slots in the shared professor schedule and
(ii) pairwise disjointness of the committed sessions of each non-flexible
faculty name; moreover any later feasibility check for a non-flexible faculty
rejects every candidate overlapping a recorded slot. -/
theorem C1_no_cross_run_double_booking (st : SchedState) (committed : List Session)
    (f c : String) (day s dur : Nat) (ty co na : String)
    (hrec : prof_records st committed) (hnd : no_double_booking committed)
    (hch : check_scheduling_possibility f c day s dur
      st.professor_schedule st.classroom_schedule st.timetable = true) :
    prof_records (update_schedule f c day s dur ty co na st)
        (committed ++ [⟨f, c, day, s, dur⟩]) ∧
    no_double_booking (committed ++ [⟨f, c, day, s, dur⟩]) ∧
    (∀ f' c' day' s' dur', faculty_flexible f' = false →
      (∃ i, i < dur' ∧ (s' + i) ∈ (update_schedule f c day s dur ty co na st).professor_schedule f' day') →
      check_scheduling_possibility f' c' day' s' dur'
        (update_schedule f c day s dur ty co na st).professor_schedule
        (update_schedule f c day s dur ty co na st).classroom_schedule
        (update_schedule f c day s dur ty co na st).timetable = false) := by
  refine ⟨?_, ?_, ?_⟩
  · -- recording is preserved and extended to the new session
    intro sess hmem hflex i hi
    rcases List.mem_append.mp hmem with hold | hnew
    · rw [update_schedule_ps_mem]
      exact Or.inl (hrec sess hold hflex i hi)
    · have hs : sess = ⟨f, c, day, s, dur⟩ := List.mem_singleton.mp hnew
      subst hs
      rw [update_schedule_ps_mem]
      dsimp only at hi ⊢
      refine Or.inr ⟨?_, rfl, by omega, by omega⟩
      rw [split_faculty_self f hflex]
      exact List.mem_singleton.mpr rfl
  · -- no double booking is preserved
    intro i j hi hj hij hflex hfac d' sl hocc
    have hlen : (committed ++ [(⟨f, c, day, s, dur⟩ : Session)]).length =
      committed.length + 1 := by simp
    rw [get_append_last] at hocc hflex hfac
    rw [get_append_last] at hocc hfac
    by_cases hik : i < committed.length
    · by_cases hjk : j < committed.length
      · rw [dif_pos hik] at hocc hflex hfac
        rw [dif_pos hjk] at hocc hfac
        exact hnd i j hik hjk hij hflex hfac d' sl hocc
      · -- j is the new session, i is an old one with the same faculty f
        rw [dif_pos hik] at hocc hflex hfac
        rw [dif_neg hjk] at hocc hfac
        set s1 := committed.get ⟨i, hik⟩ with hs1
        obtain ⟨ho1, ho2⟩ := hocc
        obtain ⟨hd1, hlo1, hhi1⟩ := ho1
        obtain ⟨hd2, hlo2, hhi2⟩ := ho2
        dsimp only at hd1 hlo1 hhi1 hd2 hlo2 hhi2
        have hfacf : s1.faculty = f := hfac
        have hday : s1.day = day := by rw [← hd1, hd2]
        have hrec1 : sl ∈ st.professor_schedule f day := by
          have := hrec s1 (List.get_mem committed i hik) hflex (sl - s1.start_slot) (by omega)
          rw [hfacf, hday] at this
          have harg : s1.start_slot + (sl - s1.start_slot) = sl := by omega
          rw [harg] at this
          exact this
        have hnot : sl ∉ st.professor_schedule f day := by
          have hflexf : faculty_flexible f = false := by rw [← hfacf]; exact hflex
          have := ((check_eq_true_iff f c day s dur st.professor_schedule
            st.classroom_schedule st.timetable).mp hch (sl - s) (by omega)).2.2.2.1 hflexf
          have harg : s + (sl - s) = sl := by omega
          rw [harg] at this
          exact this
        exact hnot hrec1
    · by_cases hjk : j < committed.length
      · -- i is the new session, j is an old one with the same faculty f
        rw [dif_neg hik] at hocc hflex hfac
        rw [dif_pos hjk] at hocc hfac
        set s2 := committed.get ⟨j, hjk⟩ with hs2
        obtain ⟨ho1, ho2⟩ := hocc
        obtain ⟨hd1, hlo1, hhi1⟩ := ho1
        obtain ⟨hd2, hlo2, hhi2⟩ := ho2
        dsimp only at hd1 hlo1 hhi1 hd2 hlo2 hhi2
        have hfacf : s2.faculty = f := hfac.symm
        have hday : s2.day = day := by rw [← hd2, hd1]
        have hflex2 : faculty_flexible s2.faculty = false := by rw [hfacf]; exact hflex
        have hrec2 : sl ∈ st.professor_schedule f day := by
          have := hrec s2 (List.get_mem committed j hjk) hflex2 (sl - s2.start_slot) (by omega)
          rw [hfacf, hday] at this
          have harg : s2.start_slot + (sl - s2.start_slot) = sl := by omega
          rw [harg] at this
          exact this
        have hnot : sl ∉ st.professor_schedule f day := by
          have := ((check_eq_true_iff f c day s dur st.professor_schedule
            st.classroom_schedule st.timetable).mp hch (sl - s) (by omega)).2.2.2.1 hflex
          have harg : s + (sl - s) = sl := by omega
          rw [harg] at this
          exact this
        exact hnot hrec2
      · -- both indices point at the appended session: impossible since i is not j
        have : i = committed.length := by
          have := hi; rw [hlen] at this; omega
        have : j = committed.length := by
          have := hj; rw [hlen] at this; omega
        omega
  · -- a later check for a non-flexible faculty rejects recorded overlaps
    intro f' c' day' s' dur' hflex' ⟨i, hi, hmem⟩
    exact check_eq_false_of_mem_prof f' c' day' s' dur'
      (update_schedule f c day s dur ty co na st).professor_schedule
      (update_schedule f c day s dur ty co na st).classroom_schedule
      (update_schedule f c day s dur ty co na st).timetable hflex' i hi hmem

theorem C1_no_cross_run_double_booking_witness :
    prof_records (update_schedule "FacA" "Room1" 0 0 3 "LEC 1" "C" "N" init_state)
        [⟨"FacA", "Room1", 0, 0, 3⟩] ∧
    no_double_booking [⟨"FacA", "Room1", 0, 0, 3⟩] := by
  have h := C1_no_cross_run_double_booking init_state [] "FacA" "Room1" 0 0 3 "LEC 1" "C" "N"
    (fun sess hmem => absurd hmem (List.not_mem_nil sess))
    (fun i j hi => absurd hi (Nat.not_lt_zero i))
    (by decide)
  exact ⟨h.1, h.2.1⟩

/-- C4: a successful phase-1 placement is the first feasible (day, startSlot)
in the order given by sorted_days (a permutation of the day indices that is
strictly sorted by the lexicographic key (load, day index), realising the
stable ascending-by-load sort) and, within a day, by increasing start slot;
concretely, on an empty availability index and grid a LEC request lands at
Monday slot 0 deterministically for every random source, and a second LEC
request for the same faculty and classroom then lands at Tuesday slot 0, a
day different from Monday. -/
theorem C4_phase1_first_feasible :
    (∀ (f c : String) (dur : Nat) (st : SchedState) (d s : Nat),
      phase1 f c dur st = some (d, s) →
      (sorted_days st.timetable).Perm (List.range DAYS.length) ∧
      (sorted_days st.timetable).Pairwise (lex_lt (day_load st.timetable)) ∧
      (∃ l₁ l₂, sorted_days st.timetable = l₁ ++ d :: l₂ ∧
        ∀ d' ∈ l₁, find_slot f c dur st d' = none) ∧
      check_scheduling_possibility f c d s dur
        st.professor_schedule st.classroom_schedule st.timetable = true ∧
      s < TIME_SLOTS.length + 1 - dur ∧
      (∀ t, t < s → check_scheduling_possibility f c d t dur
        st.professor_schedule st.classroom_schedule st.timetable = false)) ∧
    (∀ rnd, schedule_session "FacA" "Room1" "LEC 1" "C" "N" MAX_SCHEDULING_ATTEMPTS rnd init_state =
      some (update_schedule "FacA" "Room1" 0 0 (duration_of "LEC 1") "LEC 1" "C" "N" init_state,
        .Scheduled 0 0, 0)) ∧
    (∀ rnd, schedule_session "FacA" "Room1" "LEC 2" "C" "N" MAX_SCHEDULING_ATTEMPTS rnd
        (update_schedule "FacA" "Room1" 0 0 (duration_of "LEC 1") "LEC 1" "C" "N" init_state) =
      some (update_schedule "FacA" "Room1" 1 0 (duration_of "LEC 2") "LEC 2" "C" "N"
          (update_schedule "FacA" "Room1" 0 0 (duration_of "LEC 1") "LEC 1" "C" "N" init_state),
        .Scheduled 1 0, 0)) ∧
    (1 : Nat) ≠ 0 := by
  refine ⟨?_, ?_, ?_, by decide⟩
  · intro f c dur st d s h
    unfold phase1 at h
    obtain ⟨l₁, a, l₂, hsplit, ha, hnone⟩ := findSome?_eq_some_split h
    obtain ⟨x, hfind, hpair⟩ := Option.map_eq_some'.mp ha
    have had : a = d := congrArg (fun p => p.1) hpair
    have hxs : x = s := congrArg (fun p => p.2) hpair
    subst had hxs
    obtain ⟨hcheck, hbound, hmin⟩ := find?_range_some hfind
    refine ⟨sorted_days_perm st.timetable, sorted_days_pairwise st.timetable,
      ⟨l₁, l₂, hsplit, ?_⟩, hcheck, hbound, fun t ht => hmin t ht⟩
    intro d' hd'
    have := hnone d' hd'
    exact Option.map_eq_none'.mp this
  · intro rnd
    have hp : phase1 "FacA" "Room1" (duration_of "LEC 1") init_state = some (0, 0) := by decide
    unfold schedule_session schedule_session_core
    rw [hp]
  · intro rnd
    have hp : phase1 "FacA" "Room1" (duration_of "LEC 2")
        (update_schedule "FacA" "Room1" 0 0 (duration_of "LEC 1") "LEC 1" "C" "N" init_state) =
        some (1, 0) := by decide
    unfold schedule_session schedule_session_core
    rw [hp]

theorem C4_phase1_first_feasible_witness :
    check_scheduling_possibility "FacA" "Room1" 0 0 3
      init_state.professor_schedule init_state.classroom_schedule init_state.timetable = true ∧
    0 < TIME_SLOTS.length + 1 - 3 := by
  have h := C4_phase1_first_feasible.1 "FacA" "Room1" 3 init_state 0 0 (by decide)
  exact ⟨h.2.2.2.1, h.2.2.2.2.1⟩

/-- C5: phase 2 runs only when phase 1 finds nothing; it performs at most
attempt_limit trials drawn from the random source (the result depends only on
the first attempt_limit draws, each trial's day and start slot lying in range),
commits on the first feasible trial, returns the Failed outcome once the
budget is exhausted (in particular with budget 0), and always returns an
outcome value rather than failing to produce one. -/
theorem C5_bounded_randomized_fallback (f c ty co na : String) (limit : Nat)
    (rnd : Nat → Nat × Nat) (st : SchedState) :
    (∀ d s, phase1 f c (duration_of ty) st = some (d, s) →
      schedule_session f c ty co na limit rnd st =
        some (update_schedule f c d s (duration_of ty) ty co na st, .Scheduled d s, 0)) ∧
    (∀ rnd', (∀ k, k < limit → rnd k = rnd' k) →
      schedule_session f c ty co na limit rnd st =
        schedule_session f c ty co na limit rnd' st) ∧
    (phase1 f c (duration_of ty) st = none →
      ∀ m, m < limit →
        (∀ t, t < m → check_scheduling_possibility f c (rnd_day rnd t)
          (rnd_slot (duration_of ty) rnd t) (duration_of ty)
          st.professor_schedule st.classroom_schedule st.timetable = false) →
        check_scheduling_possibility f c (rnd_day rnd m)
          (rnd_slot (duration_of ty) rnd m) (duration_of ty)
          st.professor_schedule st.classroom_schedule st.timetable = true →
        schedule_session f c ty co na limit rnd st =
          some (update_schedule f c (rnd_day rnd m) (rnd_slot (duration_of ty) rnd m)
            (duration_of ty) ty co na st,
            .Scheduled (rnd_day rnd m) (rnd_slot (duration_of ty) rnd m), m + 1)) ∧
    (phase1 f c (duration_of ty) st = none →
      (∀ t, t < limit → check_scheduling_possibility f c (rnd_day rnd t)
        (rnd_slot (duration_of ty) rnd t) (duration_of ty)
        st.professor_schedule st.classroom_schedule st.timetable = false) →
      schedule_session f c ty co na limit rnd st = some (st, .Failed, limit)) ∧
    (phase1 f c (duration_of ty) st = none → limit = 0 →
      schedule_session f c ty co na limit rnd st = some (st, .Failed, 0)) ∧
    (schedule_session f c ty co na limit rnd st).isSome = true ∧
    (∀ k, rnd_day rnd k < DAYS.length) ∧
    (∀ k, rnd_slot (duration_of ty) rnd k < TIME_SLOTS.length + 1 - duration_of ty) := by
  refine ⟨?_, ?_, ?_, ?_, ?_, schedule_session_isSome f c ty co na limit rnd st, ?_, ?_⟩
  · intro d s hp
    unfold schedule_session schedule_session_core
    rw [hp]
  · intro rnd' hagree
    unfold schedule_session schedule_session_core
    cases hp : phase1 f c (duration_of ty) st with
    | some p => rfl
    | none =>
      exact phase2_loop_rnd_congr limit 0 st (fun t _ ht2 => hagree t (by omega))
  · intro hp m hm hprior hsucc
    unfold schedule_session schedule_session_core
    rw [hp]
    exact phase2_loop_first_success (duration_of_le ty) limit 0 st m (Nat.zero_le m)
      (by omega) (fun t _ ht2 => hprior t ht2) hsucc
  · intro hp hall
    unfold schedule_session schedule_session_core
    rw [hp]
    have h2 := @phase2_loop_exhaust f c ty co na (duration_of ty) rnd (duration_of_le ty)
      limit 0 st (fun m _ hm2 => hall m (by omega))
    rw [h2, Nat.zero_add]
  · intro hp hlim
    subst hlim
    unfold schedule_session schedule_session_core
    rw [hp, phase2_loop]
  · intro k
    exact Nat.mod_lt _ (by decide)
  · intro k
    have hd := duration_of_le ty
    exact Nat.mod_lt _ (by omega)

theorem C5_bounded_randomized_fallback_witness :
    phase1 "FacA" "Room1" (duration_of "LEC 1") full_state = none ∧
    schedule_session "FacA" "Room1" "LEC 1" "C" "N" 0 rnd_zero full_state =
      some (full_state, .Failed, 0) := by
  have h := (C5_bounded_randomized_fallback "FacA" "Room1" "LEC 1" "C" "N" 0
    rnd_zero full_state).2.2.2.2.1 (by decide) rfl
  exact ⟨by decide, h⟩

/-- C6: each placement is atomic: a Failed outcome leaves the professor
schedule, the classroom schedule and the grid exactly as they were (the
returned state is the input state), while a Scheduled outcome is exactly the
full-range commit of a candidate that passed the feasibility check over the
whole duration before any mutation, with every cell of the range written. -/
theorem C6_atomic_placement (f c ty co na : String) (limit : Nat)
    (rnd : Nat → Nat × Nat) (st st' : SchedState) (k : Nat) :
    (schedule_session f c ty co na limit rnd st = some (st', .Failed, k) → st' = st) ∧
    (∀ d s, schedule_session f c ty co na limit rnd st = some (st', .Scheduled d s, k) →
      st' = update_schedule f c d s (duration_of ty) ty co na st ∧
      check_scheduling_possibility f c d s (duration_of ty)
        st.professor_schedule st.classroom_schedule st.timetable = true ∧
      ∀ i, i < duration_of ty → (st'.timetable d (s + i)).type = some ty) := by
  constructor
  · intro h
    unfold schedule_session schedule_session_core at h
    cases hp : phase1 f c (duration_of ty) st with
    | some p =>
      rw [hp] at h
      obtain ⟨d0, s0⟩ := p
      have := congrArg (fun x => x.2.1) (Option.some.inj h)
      exact absurd this (by simp)
    | none =>
      rw [hp] at h
      exact (phase2_loop_failed h).1
  · intro d s h
    have hmain : st' = update_schedule f c d s (duration_of ty) ty co na st ∧
        check_scheduling_possibility f c d s (duration_of ty)
          st.professor_schedule st.classroom_schedule st.timetable = true := by
      unfold schedule_session schedule_session_core at h
      cases hp : phase1 f c (duration_of ty) st with
      | some p =>
        rw [hp] at h
        obtain ⟨d0, s0⟩ := p
        have hinj := Option.some.inj h
        have hout : Outcome.Scheduled d0 s0 = .Scheduled d s :=
          congrArg (fun x => x.2.1) hinj
        have hd : d0 = d := by injection hout
        have hs : s0 = s := by injection hout
        subst hd hs
        refine ⟨(congrArg (fun x => x.1) hinj).symm, ?_⟩
        unfold phase1 at hp
        obtain ⟨l₁, a, l₂, _, ha, _⟩ := findSome?_eq_some_split hp
        obtain ⟨x, hfind, hpair⟩ := Option.map_eq_some'.mp ha
        have had : a = d0 := congrArg (fun p => p.1) hpair
        have hxs : x = s0 := congrArg (fun p => p.2) hpair
        subst had hxs
        exact (find?_range_some hfind).1
      | none =>
        rw [hp] at h
        exact phase2_loop_scheduled h
    refine ⟨hmain.1, hmain.2, ?_⟩
    intro i hi
    rw [hmain.1, update_schedule_tt, if_pos ⟨rfl, by omega, by omega⟩]
    rfl

theorem C6_atomic_placement_witness :
    ((update_schedule "FacA" "Room1" 0 0 (duration_of "LEC 1")
      "LEC 1" "C" "N" init_state).timetable 0 (0 + 1)).type = some "LEC 1" := by
  have h := (C6_atomic_placement "FacA" "Room1" "LEC 1" "C" "N" MAX_SCHEDULING_ATTEMPTS
      rnd_zero init_state
      (update_schedule "FacA" "Room1" 0 0 (duration_of "LEC 1") "LEC 1" "C" "N" init_state)
      0).2 0 0 (by rfl)
  exact h.2.2 1 (by decide)

/-- C7 counterexample: for a request whose duration (20) exceeds the slot
count (19) and a positive attempt budget, the scheduler does not return a
Failed outcome: phase 1 finds nothing and the first phase-2 trial calls
randint over the empty range 0 .. len(TIME_SLOTS) - duration, which raises a
ValueError (modelled as none), contradicting the claim that such inputs
surface Failed and never an exception. -/
theorem C7_counterexample :
    schedule_session_core "FacA" "Room1" "LAB" "C" "N" 20 1 rnd_zero init_state = none := by
  rfl

/-- C7 (amended): for a duration exceeding the slot count the feasibility
predicate rejects every candidate, so phase 1 always fails; with attempt
budget 0 the outcome is the Failed value and no exception, but with a
positive budget the phase-2 slot draw raises (modelled none) instead of
returning Failed. -/
theorem C7_structural_infeasibility (dur : Nat) (hdur : TIME_SLOTS.length < dur) :
    (∀ (f c : String) (day s : Nat) (ps cs : String → Nat → Finset Nat)
      (tt : Nat → Nat → Cell),
      check_scheduling_possibility f c day s dur ps cs tt = false) ∧
    (∀ (f c ty co na : String) (rnd : Nat → Nat × Nat) (st : SchedState),
      schedule_session_core f c ty co na dur 0 rnd st = some (st, .Failed, 0)) ∧
    (∀ (f c ty co na : String) (rnd : Nat → Nat × Nat) (st : SchedState) (limit : Nat),
      0 < limit → schedule_session_core f c ty co na dur limit rnd st = none) := by
  have hcheck : ∀ (f c : String) (day s : Nat) (ps cs : String → Nat → Finset Nat)
      (tt : Nat → Nat → Cell), check_scheduling_possibility f c day s dur ps cs tt = false := by
    intro f c day s ps cs tt
    cases hch : check_scheduling_possibility f c day s dur ps cs tt
    · rfl
    · have := ((check_eq_true_iff f c day s dur ps cs tt).mp hch (dur - 1) (by omega)).1
      omega
  have hphase1 : ∀ (f c : String) (st : SchedState), phase1 f c dur st = none := by
    intro f c st
    unfold phase1
    apply findSome?_eq_none_of
    intro d _
    have hfind : find_slot f c dur st d = none := by
      unfold find_slot
      have hz : TIME_SLOTS.length + 1 - dur = 0 := by omega
      rw [hz, List.range_zero]
      rfl
    rw [hfind]
    rfl
  refine ⟨hcheck, ?_, ?_⟩
  · intro f c ty co na rnd st
    unfold schedule_session_core
    rw [hphase1, phase2_loop]
  · intro f c ty co na rnd st limit hlim
    unfold schedule_session_core
    rw [hphase1]
    exact phase2_loop_overflow hdur limit 0 st hlim

theorem C7_structural_infeasibility_witness :
    check_scheduling_possibility "FacA" "Room1" 0 0 20 empty_sched empty_sched empty_grid = false ∧
    schedule_session_core "FacA" "Room1" "LAB" "C" "N" 20 0 rnd_zero init_state =
      some (init_state, .Failed, 0) := by
  have h := C7_structural_infeasibility 20 (by decide)
  exact ⟨h.1 "FacA" "Room1" 0 0 empty_sched empty_sched empty_grid,
    h.2.1 "FacA" "Room1" "LAB" "C" "N" rnd_zero init_state⟩

lemma schedule_lunch_day_apply (tt : Nat → Nat → Cell) (day si d s : Nat) :
    schedule_lunch_day tt day si d s =
      if d = day ∧ s = si + 1 then
        { tt d s with
          type := some "LUNCH"
          code := "LUNCH"
          name := "LUNCH BREAK"
          is_first := decide (si + 1 = si)
          duration := (if si + 1 = si then 2 else 0) }
      else if d = day ∧ s = si then
        { tt d s with
          type := some "LUNCH"
          code := "LUNCH"
          name := "LUNCH BREAK"
          is_first := decide (si = si)
          duration := (if si = si then 2 else 0) }
      else tt d s := by
  show mark_lunch_slot (mark_lunch_slot tt day si si) day (si + 1) si d s = _
  simp only [mark_lunch_slot]
  by_cases h2 : d = day ∧ s = si + 1
  · rw [if_pos h2, if_pos h2, if_neg (by rintro ⟨_, hc⟩; omega)]
  · rw [if_neg h2, if_neg h2]

/-- C8 counterexample: the 2-slot lunch block written by the lunch placer on a
fresh grid does not follow the claimed convention: its continuation cell keeps
position 0 (the source never writes the position field for lunch), not the
claimed position 1, so block_convention fails for the committed lunch block. -/
theorem C8_counterexample :
    ((schedule_lunch_day empty_grid 0 7) 0 7).type = some "LUNCH" ∧
    ((schedule_lunch_day empty_grid 0 7) 0 7).is_first = true ∧
    ((schedule_lunch_day empty_grid 0 7) 0 7).duration = 2 ∧
    ((schedule_lunch_day empty_grid 0 7) 0 8).type = some "LUNCH" ∧
    ((schedule_lunch_day empty_grid 0 7) 0 8).position = 0 ∧
    ¬ block_convention (schedule_lunch_day empty_grid 0 7) 0 7 2 := by
  refine ⟨by decide, by decide, by decide, by decide, by decide, ?_⟩
  intro hbc
  have hpos := (hbc.2.2.2.2 1 (by decide) (by decide)).2.2.1
  exact absurd hpos (by decide)

/-- C8 (amended): every block committed by update_schedule satisfies the
claimed convention in full (one first cell with is_first true, duration d and
position 0, continuation cells with is_first false, duration 0, position
1..d-1 and the same type tag); the lunch block follows the same convention
for type, is_first and duration, but its cells keep their prior position
value (0 on a fresh grid) because the lunch writer does not set position. -/
theorem C8_block_convention :
    (∀ (f c : String) (day s dur : Nat) (ty co na : String) (st : SchedState), 0 < dur →
      block_convention ((update_schedule f c day s dur ty co na st).timetable) day s dur) ∧
    (∀ (tt : Nat → Nat → Cell) (day si : Nat),
      (schedule_lunch_day tt day si day si).type = some "LUNCH" ∧
      (schedule_lunch_day tt day si day si).is_first = true ∧
      (schedule_lunch_day tt day si day si).duration = 2 ∧
      (schedule_lunch_day tt day si day si).position = (tt day si).position ∧
      (schedule_lunch_day tt day si day (si + 1)).type = some "LUNCH" ∧
      (schedule_lunch_day tt day si day (si + 1)).is_first = false ∧
      (schedule_lunch_day tt day si day (si + 1)).duration = 0 ∧
      (schedule_lunch_day tt day si day (si + 1)).position = (tt day (si + 1)).position) := by
  constructor
  · intro f c day s dur ty co na st hdur
    have hfirst : (update_schedule f c day s dur ty co na st).timetable day s =
        session_cell f c ty co na dur 0 := by
      rw [update_schedule_tt, if_pos ⟨rfl, Nat.le_refl s, by omega⟩, Nat.sub_self]
    refine ⟨hdur, ?_, ?_, ?_, ?_⟩
    · rw [hfirst]; rfl
    · rw [hfirst]; simp [session_cell]
    · rw [hfirst]; rfl
    · intro i hi h1i
      have hcell : (update_schedule f c day s dur ty co na st).timetable day (s + i) =
          session_cell f c ty co na dur i := by
        rw [update_schedule_tt, if_pos ⟨rfl, by omega, by omega⟩, Nat.add_sub_cancel_left]
      rw [hcell, hfirst]
      refine ⟨by simp [session_cell]; omega, by simp [session_cell]; omega, rfl, rfl⟩
  · intro tt day si
    have h1 : ¬ (day = day ∧ si = si + 1) := by rintro ⟨_, hc⟩; omega
    have h2 : (day = day ∧ si + 1 = si + 1) := ⟨rfl, rfl⟩
    have h3 : (day = day ∧ si = si) := ⟨rfl, rfl⟩
    have ha : schedule_lunch_day tt day si day si =
        { tt day si with
          type := some "LUNCH"
          code := "LUNCH"
          name := "LUNCH BREAK"
          is_first := decide (si = si)
          duration := (if si = si then 2 else 0) } := by
      rw [schedule_lunch_day_apply, if_neg h1, if_pos h3]
    have hb : schedule_lunch_day tt day si day (si + 1) =
        { tt day (si + 1) with
          type := some "LUNCH"
          code := "LUNCH"
          name := "LUNCH BREAK"
          is_first := decide (si + 1 = si)
          duration := (if si + 1 = si then 2 else 0) } := by
      rw [schedule_lunch_day_apply, if_pos h2]
    rw [ha, hb]
    simp

/-- C9: for every course the lecture expansion issues exactly 2 lecture
requests labeled LEC 1 and LEC 2 when the lecture count is 3, and exactly L
requests labeled LEC 1 .. LEC L otherwise (none for L = 0), each handed to
schedule_session in order. -/
theorem C9_lecture_expansion (f c co na : String) (l limit : Nat)
    (rnd : Nat → Nat × Nat) (st : SchedState) :
    (handle_lectures f c co na l limit rnd st).map (fun r => r.2.2.2.2) =
      some (if l = 3 then [lec_label 0, lec_label 1]
        else (List.range l).map lec_label) ∧
    (if l = 3 then [lec_label 0, lec_label 1]
      else (List.range l).map lec_label).length = (if l = 3 then 2 else l) ∧
    lec_label 0 = "LEC 1" ∧ lec_label 1 = "LEC 2" := by
  refine ⟨?_, ?_, by decide, by decide⟩
  · unfold handle_lectures
    rw [handle_lectures_go_trace]
    by_cases h : l = 3
    · rw [if_pos h, if_pos h]
      rfl
    · rw [if_neg h, if_neg h]
      rfl
  · by_cases h : l = 3
    · rw [if_pos h, if_pos h]
      rfl
    · rw [if_neg h, if_neg h]
      simp

/-- C10: priority departments (DSAI, ECE) get int(5000 * 1.5) = 7500 attempts
(1.5 times the base 5000, which every other department gets); and in the
combined-course branch every lecture or tutorial request of a course whose
lab was scheduled first uses the escalated limit: double the department's
limit exactly when the lab failed and the department is a priority one, the
unchanged limit otherwise. -/
theorem C10_priority_budgets :
    (attempt_limit_for "DSAI" = 7500 ∧ attempt_limit_for "ECE" = 7500 ∧
      (∀ dep, dep ∉ priority_departments →
        attempt_limit_for dep = MAX_SCHEDULING_ATTEMPTS) ∧
      2 * attempt_limit_for "DSAI" = 3 * MAX_SCHEDULING_ATTEMPTS) ∧
    (∀ (dep f c co na : String) (p l t limit : Nat) (rnd : Nat → Nat × Nat)
      (st st' : SchedState) (labOk : Bool) (trace : List (String × Nat)),
      process_combined_course dep f c co na p l t limit rnd st = some (st', labOk, trace) →
      ∀ e ∈ trace, e.1 ≠ "LAB" → e.2 = escalated_limit limit labOk dep) ∧
    (∀ (limit : Nat) (dep : String), escalated_limit limit false dep =
      if dep ∈ priority_departments then limit * 2 else limit) ∧
    (∀ (limit : Nat) (dep : String), escalated_limit limit true dep = limit) := by
  refine ⟨⟨by decide, by decide, ?_, by decide⟩, ?_, ?_, ?_⟩
  · intro dep h
    unfold attempt_limit_for
    rw [if_neg h]
  · intro dep f c co na p l t limit rnd st st' labOk trace h e he hne
    rw [process_combined_course] at h
    cases h1 : lab_step f c co na p limit rnd st with
    | none => rw [h1] at h; exact absurd h (by simp)
    | some r1 =>
      obtain ⟨st1, cs, k1, labtr⟩ := r1
      rw [h1] at h
      dsimp only at h
      cases h2 : (if 0 < l then
          handle_lectures f c co na l (escalated_limit limit cs dep) (shift_rnd rnd k1) st1
        else some (st1, 0, 0, 0, ([] : List String))) with
      | none => rw [h2] at h; exact absurd h (by simp)
      | some r2 =>
        obtain ⟨st2, sc2, fl2, k2, lectr⟩ := r2
        rw [h2] at h
        dsimp only at h
        cases h3 : tut_go f c co na (escalated_limit limit cs dep)
            (shift_rnd rnd (k1 + k2)) (List.range t) st2 0 [] with
        | none => rw [h3] at h; exact absurd h (by simp)
        | some r3 =>
          obtain ⟨st3, k3, tuttr⟩ := r3
          rw [h3] at h
          dsimp only at h
          have hinj := Option.some.inj h
          have hok : cs = labOk := congrArg (fun x => x.2.1) hinj
          have htr : labtr ++ lectr.map (fun lbl => (lbl, escalated_limit limit cs dep)) ++
              tuttr.map (fun lbl => (lbl, escalated_limit limit cs dep)) = trace :=
            congrArg (fun x => x.2.2) hinj
          rw [← htr] at he
          rcases List.mem_append.mp he with hel | he3
          · rcases List.mem_append.mp hel with he1 | he2
            · exact absurd (lab_step_trace f c co na p limit rnd st st1 cs k1 labtr h1 e he1).1 hne
            · obtain ⟨lbl, _, heq⟩ := List.mem_map.mp he2
              rw [← heq, ← hok]
          · obtain ⟨lbl, _, heq⟩ := List.mem_map.mp he3
            rw [← heq, ← hok]
  · intro limit dep
    unfold escalated_limit
    by_cases h : dep ∈ priority_departments
    · rw [if_pos (by simp [h]), if_pos h]
    · rw [if_neg (by simp [h]), if_neg h]
  · intro limit dep
    unfold escalated_limit
    rw [if_neg (by simp)]

theorem C10_priority_budgets_witness :
    process_combined_course "DSAI" "FacA" "Room1" "C" "N" 1 1 0 3 rnd_zero full_state =
      some (full_state, false, [("LAB", 3), ("LEC 1", 6)]) ∧
    (6 : Nat) = escalated_limit 3 false "DSAI" := by
  have hrun : process_combined_course "DSAI" "FacA" "Room1" "C" "N" 1 1 0 3 rnd_zero full_state =
      some (full_state, false, [("LAB", 3), ("LEC 1", 6)]) := by rfl
  refine ⟨hrun, ?_⟩
  exact C10_priority_budgets.2.1 "DSAI" "FacA" "Room1" "C" "N" 1 1 0 3 rnd_zero
    full_state full_state false [("LAB", 3), ("LEC 1", 6)] hrun ("LEC 1", 6)
    (by simp) (by decide)
